import Mathlib

/-!
Verification of the archive.org listing scraper and downloader
(`scrape-archive_download.py`) against its specification.

The development shallowly embeds the script over `List Char` / `String`,
`Nat` and `ℚ`.  Python floats only ever hold exact values in the behaviors
claimed (finite decimal literals scaled by powers of 1024), so sizes are
modelled as rationals.  Fallible library calls (the network, `float`,
integer division) are modelled with `Option` / `Except`, and console or
filesystem effects are made explicit fields of result structures.
-/

/-! ## Python string primitives -/

/-- The ASCII whitespace characters removed by Python `str.strip()`
(Unicode-only whitespace is not modelled; the scraped strings are ASCII). -/
def pyIsSpace (c : Char) : Bool :=
  c = ' ' ∨ c = '\t' ∨ c = '\n' ∨ c = '\r' ∨ c = '\x0b' ∨ c = '\x0c'

/-- Python `str.strip()`: drop leading and trailing whitespace. -/
def pyStrip (l : List Char) : List Char :=
  ((l.dropWhile pyIsSpace).reverse.dropWhile pyIsSpace).reverse

/-- Python `str.upper()` on ASCII input. -/
def pyUpper (l : List Char) : List Char := l.map Char.toUpper

/-- Numeric value of a digit string, as in `int` reading of consecutive digits. -/
def digitsToNat (l : List Char) : Nat :=
  l.foldl (fun a c => 10 * a + (c.toNat - 48)) 0

/-! ## Python `float` literal parsing

`float(s)` as used by `parse_size`: an optional sign, then either
`digits`, `digits.`, `digits.digits` or `.digits`, optionally followed by a
decimal exponent.  Surrounding ASCII whitespace is accepted.  `none` models
the `ValueError` raised on any other input.  (Digit-group underscores and
the `inf` / `nan` literals are not modelled: the spec and the size strings
on a listing page never use them, and no claim depends on them.) -/

/-- Unsigned decimal mantissa: `digits[.digits]`, `digits.`, or `.digits`. -/
def parseUDec (l : List Char) : Option ℚ :=
  let intPart := l.takeWhile Char.isDigit
  let rest := l.dropWhile Char.isDigit
  match rest with
  | [] => if intPart = [] then none else some (digitsToNat intPart : ℚ)
  | '.' :: frac =>
      if frac.all Char.isDigit ∧ (intPart ≠ [] ∨ frac ≠ []) then
        some ((digitsToNat intPart : ℚ) + (digitsToNat frac : ℚ) / (10 : ℚ) ^ frac.length)
      else none
  | _ => none

/-- Split a float literal at the first exponent marker `e` or `E`. -/
def splitExpMark : List Char → List Char × Option (List Char)
  | [] => ([], none)
  | c :: rest =>
      if c = 'e' ∨ c = 'E' then ([], some rest)
      else
        let p := splitExpMark rest
        (c :: p.1, p.2)

/-- Exponent part of a float literal: optional sign then digits. -/
def parseExpPart (l : List Char) : Option Int :=
  let p : Int × List Char :=
    match l with
    | '+' :: r => (1, r)
    | '-' :: r => (-1, r)
    | r => (1, r)
  if p.2 ≠ [] ∧ p.2.all Char.isDigit then some (p.1 * (digitsToNat p.2 : Int)) else none

/-- Python `float(s)`; `none` models `ValueError`. -/
def pyFloat (l : List Char) : Option ℚ :=
  let l := pyStrip l
  let sg : ℚ × List Char :=
    match l with
    | '+' :: r => (1, r)
    | '-' :: r => (-1, r)
    | r => (1, r)
  let me := splitExpMark sg.2
  match me.2 with
  | none => (parseUDec me.1).map (fun m => sg.1 * m)
  | some e =>
      match parseUDec me.1, parseExpPart e with
      | some m, some k => some (sg.1 * m * (10 : ℚ) ^ k)
      | _, _ => none

/-! ## `parse_size` -/

/-- `parse_size` from the script: strip and uppercase, then scale the float
value of the prefix by the suffix (`G`, `M`, `K`); the `try`/`except
ValueError` that yields `0` on an unparsable prefix appears here as
`Option.getD 0` in each branch.  Total by construction: no error escapes. -/
def parse_sizeL (l : List Char) : ℚ :=
  let t := pyUpper (pyStrip l)
  if t.getLast? = some 'G' then (pyFloat t.dropLast).getD 0 * 1024 ^ 3
  else if t.getLast? = some 'M' then (pyFloat t.dropLast).getD 0 * 1024 ^ 2
  else if t.getLast? = some 'K' then (pyFloat t.dropLast).getD 0 * 1024
  else (pyFloat t).getD 0

/-- `parse_size` on `String`, delegating to the `List Char` embedding. -/
def parse_size (s : String) : ℚ := parse_sizeL s.data

/-- The numeric prefix that `parse_size` hands to `float`: everything but a
trailing `G`/`M`/`K` of the stripped, uppercased input. -/
def sizePrefix (l : List Char) : List Char :=
  let t := pyUpper (pyStrip l)
  if t.getLast? = some 'G' ∨ t.getLast? = some 'M' ∨ t.getLast? = some 'K' then
    t.dropLast
  else t

/-! ## URL primitives from `urllib.parse`

`urljoin`, `urlsplit`, `unquote` and `str.split` are embedded from the
CPython 3.11 library sources, over `List Char`.  Simplifications, each
irrelevant to the listing pages and to every claim: the `;params`
component (split out of the last path segment and rejoined verbatim by
`urlparse`/`urlunparse`) is not separated; IPv6-bracket validation and
WHATWG control-character stripping are omitted; `unquote` maps each
percent-escape to the code point of its byte value (CPython decodes runs
of escaped bytes as UTF-8, which agrees on ASCII escapes). -/

/-- Python `s.split(sep)` for a one-character separator: never empty,
keeps empty fields. -/
def pySplit (sep : Char) : List Char → List (List Char)
  | [] => [[]]
  | c :: rest =>
      if c = sep then [] :: pySplit sep rest
      else
        match pySplit sep rest with
        | s :: ss => (c :: s) :: ss
        | [] => [[c]]

/-- Python `s.join` for a one-character separator. -/
def joinWith (sep : Char) : List (List Char) → List Char
  | [] => []
  | [x] => x
  | x :: rest => x ++ sep :: joinWith sep rest

/-- The final `/`-separated segment, as `href.split('/')[-1]` computes it. -/
def lastSegment (l : List Char) : List Char := (pySplit '/' l).getLastD []

/-- Hexadecimal digit test used by percent-decoding. -/
def isHexDigit (c : Char) : Bool :=
  c.isDigit ∨ ('a' ≤ c ∧ c ≤ 'f') ∨ ('A' ≤ c ∧ c ≤ 'F')

/-- Value of a hexadecimal digit. -/
def hexVal (c : Char) : Nat :=
  if c.isDigit then c.toNat - 48 else if 'a' ≤ c then c.toNat - 87 else c.toNat - 55

/-- Python `urllib.parse.unquote`: each `%xx` escape becomes the character
with code `xx`; malformed escapes are kept verbatim. -/
def unquoteL : List Char → List Char
  | c :: a :: b :: rest =>
      if c = '%' ∧ isHexDigit a ∧ isHexDigit b then
        Char.ofNat (16 * hexVal a + hexVal b) :: unquoteL rest
      else c :: unquoteL (a :: b :: rest)
  | c :: rest => c :: unquoteL rest
  | [] => []

/-- Split at the first occurrence of a separator, reporting whether one was
found, as Python `s.split(sep, 1)`. -/
def splitFirst (sep : Char) : List Char → Option (List Char × List Char)
  | [] => none
  | c :: rest =>
      if c = sep then some ([], rest)
      else (splitFirst sep rest).map (fun p => (c :: p.1, p.2))

/-- Characters allowed in a URL scheme after the leading letter. -/
def schemeChar (c : Char) : Bool :=
  c.isAlpha ∨ c.isDigit ∨ c = '+' ∨ c = '-' ∨ c = '.'

/-- Characters that do not terminate the netloc (`_splitnetloc` scans up to
the first of `/`, `?`, `#`). -/
def netChar (c : Char) : Bool := ¬(c = '/' ∨ c = '?' ∨ c = '#')

/-- The five components of `urlsplit`. -/
structure SplitUrl where
  scheme : List Char
  netloc : List Char
  path : List Char
  query : List Char
  fragment : List Char
deriving DecidableEq, Repr

/-- Scheme extraction step of `urlsplit`: split at the first `:` when the
prefix is a well-formed scheme, lowercasing it; otherwise fall back to the
caller-supplied default scheme, as `urlparse(url, bscheme)` does. -/
def extractScheme (url : List Char) (dflt : List Char) : List Char × List Char :=
  match splitFirst ':' url with
  | some (pre, post) =>
      if pre ≠ [] ∧ pre.all schemeChar ∧ (pre.headD '0').isAlpha then
        (pre.map Char.toLower, post)
      else (dflt, url)
  | none => (dflt, url)

/-- Python `s.split(sep, 1)` returning the unsplit string when the
separator is absent. -/
def splitOnce (sep : Char) (l : List Char) : List Char × List Char :=
  match splitFirst sep l with
  | some p => p
  | none => (l, [])

/-- `urllib.parse.urlsplit(url, dflt)`: scheme, then `//netloc`, then
fragment, then query. -/
def urlsplit (url : List Char) (dflt : List Char) : SplitUrl :=
  let sr := extractScheme url dflt
  let nr : List Char × List Char :=
    if sr.2.take 2 = ['/', '/'] then
      ((sr.2.drop 2).takeWhile netChar, (sr.2.drop 2).dropWhile netChar)
    else ([], sr.2)
  let fr := splitOnce '#' nr.2
  let qr := splitOnce '?' fr.1
  ⟨sr.1, nr.1, qr.1, qr.2, fr.2⟩

/-- `urllib.parse.urlunsplit`. -/
def urlunsplit (u : SplitUrl) : List Char :=
  let url := u.path
  let url :=
    if u.netloc ≠ [] ∨ url.take 2 = ['/', '/'] then
      '/' :: '/' :: u.netloc ++
        (if url ≠ [] ∧ url.head? ≠ some '/' then '/' :: url else url)
    else url
  let url := if u.scheme ≠ [] then u.scheme ++ ':' :: url else url
  let url := if u.query ≠ [] then url ++ '?' :: u.query else url
  if u.fragment ≠ [] then url ++ '#' :: u.fragment else url

/-- `urllib.parse.uses_relative`. -/
def uses_relative : List (List Char) :=
  (["", "ftp", "http", "gopher", "nntp", "imap", "wais", "file", "https", "shttp",
    "mms", "prospero", "rtsp", "rtsps", "rtspu", "sftp", "svn", "svn+ssh", "ws",
    "wss"]).map String.data

/-- `urllib.parse.uses_netloc`. -/
def uses_netloc : List (List Char) :=
  (["", "ftp", "http", "gopher", "nntp", "telnet", "imap", "wais", "file", "mms",
    "https", "shttp", "snews", "prospero", "rtsp", "rtsps", "rtspu", "rsync",
    "svn", "svn+ssh", "sftp", "nfs", "git", "git+ssh", "ws", "wss"]).map String.data

/-- `segments[1:-1] = filter(None, segments[1:-1])`: drop empty segments,
except in the first and last position. -/
def keepLastFilter : List (List Char) → List (List Char)
  | [] => []
  | [x] => [x]
  | x :: rest => if x = [] then keepLastFilter rest else x :: keepLastFilter rest

/-- Apply `keepLastFilter` to everything after the first segment. -/
def filterMiddle : List (List Char) → List (List Char)
  | [] => []
  | [x] => [x]
  | x :: rest => x :: keepLastFilter rest

/-- The `for seg in segments` dot-segment resolution loop of `urljoin`
(`..` pops, ignoring an empty stack; `.` is skipped). -/
def resolveSegs (acc : List (List Char)) : List (List Char) → List (List Char)
  | [] => acc
  | seg :: rest =>
      if seg = ['.', '.'] then resolveSegs acc.dropLast rest
      else if seg = ['.'] then resolveSegs acc rest
      else resolveSegs (acc ++ [seg]) rest

/-- `urllib.parse.urljoin(base, url)`, following the CPython 3.11 source. -/
def urljoin (base url : List Char) : List Char :=
  if base = [] then url
  else if url = [] then base
  else
    let b := urlsplit base []
    let u := urlsplit url b.scheme
    if u.scheme ≠ b.scheme ∨ u.scheme ∉ uses_relative then url
    else if u.scheme ∈ uses_netloc ∧ u.netloc ≠ [] then
      urlunsplit ⟨u.scheme, u.netloc, u.path, u.query, u.fragment⟩
    else
      let netloc := if u.scheme ∈ uses_netloc then b.netloc else u.netloc
      if u.path = [] then
        urlunsplit ⟨u.scheme, netloc, b.path,
          if u.query = [] then b.query else u.query, u.fragment⟩
      else
        let baseParts := pySplit '/' b.path
        let baseParts := if baseParts.getLastD [] ≠ [] then baseParts.dropLast else baseParts
        let segments :=
          if u.path.head? = some '/' then pySplit '/' u.path
          else filterMiddle (baseParts ++ pySplit '/' u.path)
        let resolved := resolveSegs [] segments
        let resolved :=
          if segments.getLastD [] = ['.'] ∨ segments.getLastD [] = ['.', '.'] then
            resolved ++ [[]]
          else resolved
        let path := joinWith '/' resolved
        let path := if path = [] then ['/'] else path
        urlunsplit ⟨u.scheme, netloc, path, u.query, u.fragment⟩

/-! ## `scrape_archive` -/

/-- An anchor element; `href = none` models an `a` tag without an `href`
attribute, where `link['href']` raises `KeyError`. -/
structure Anchor where
  href : Option (List Char)
deriving DecidableEq, Repr

/-- A parsed `tr` element: `anchors` are its `a` descendants in document
order (`row.find('a')` takes the first), `tds` the text of its `td` cells
(`row.find_all('td')[-1]` takes the last). -/
structure HtmlRow where
  anchors : List Anchor
  tds : List (List Char)
deriving DecidableEq, Repr

/-- The body of the row loop in `scrape_archive`: `none` when the row is
skipped (no anchor, no `td`, or a `KeyError` on `href`, the latter with a
printed warning), otherwise the `(game_url, game_name, size)` triple
appended to the accumulators. -/
def rowEntry (pageUrl : List Char) (row : HtmlRow) : Option (List Char × List Char × ℚ) :=
  match row.anchors.head?, row.tds.getLast? with
  | some link, some sizeCell =>
      match link.href with
      | some href =>
          some (urljoin pageUrl href, unquoteL (lastSegment href), parse_sizeL sizeCell)
      | none => none
  | _, _ => none

/-- The row loop of `scrape_archive`, with the three accumulators
`game_url_list`, `game_name_list` and `total_size` threaded as in the
source (`append` and `+=`). -/
def scrapeLoop (pageUrl : List Char) :
    List HtmlRow → List (List Char) → List (List Char) → ℚ →
      List (List Char) × List (List Char) × ℚ
  | [], us, ns, total => (us, ns, total)
  | row :: rest, us, ns, total =>
      match rowEntry pageUrl row with
      | some (u, n, s) => scrapeLoop pageUrl rest (us ++ [u]) (ns ++ [n]) (total + s)
      | none => scrapeLoop pageUrl rest us ns total

/-- Row extraction over a fetched page, from empty accumulators. -/
def scrape_rows (pageUrl : List Char) (rows : List HtmlRow) :
    List (List Char) × List (List Char) × ℚ :=
  scrapeLoop pageUrl rows [] [] 0

/-- Outcome of `requests.get(url, timeout=10)` for the listing page:
`fail` is a raised `RequestException` (network failure or timeout),
`resp` carries the HTTP status and the rows BeautifulSoup parses from the
body. -/
inductive Fetch where
  | fail : Fetch
  | resp : Nat → List HtmlRow → Fetch
deriving DecidableEq, Repr

/-- `scrape_archive(url)`: one fetch (no retry); `raise_for_status` raises
on 4xx/5xx; both exception paths are caught by the `except` that prints an
error and returns `([], [], 0)`.  Total: no exception crosses the call
boundary. -/
def scrape_archive (pageUrl : List Char) (f : Fetch) :
    List (List Char) × List (List Char) × ℚ :=
  match f with
  | .fail => ([], [], 0)
  | .resp status rows =>
      if 400 ≤ status ∧ status < 600 then ([], [], 0)
      else scrape_rows pageUrl rows

/-! ## `download_file` -/

/-- The chunk sizes `response.iter_content(chunk_size=100*1024)` yields for
a fully delivered body of `n` bytes: full 102400-byte chunks, then the
nonzero remainder. -/
def chunkSizes (n : Nat) : List Nat :=
  List.replicate (n / 102400) 102400 ++ if n % 102400 = 0 then [] else [n % 102400]

/-- A Python exception that the chunk loop can raise. -/
inductive PyExn where
  | zeroDivision : PyExn
deriving DecidableEq, Repr

/-- The chunk loop of `download_file`: write the chunk, add its length to
`downloaded`, then compute `(downloaded / total_size) * 100` — which raises
`ZeroDivisionError` when `total_size = 0`.  Empty chunks are skipped by
`if chunk:`.  Returns the bytes written and chunks appended, or the raised
exception together with the progress made before it. -/
def processChunks (totalSize : Nat) :
    List Nat → Nat → Nat → Except (PyExn × Nat × Nat) (Nat × Nat)
  | [], written, count => .ok (written, count)
  | c :: rest, written, count =>
      if c = 0 then processChunks totalSize rest written count
      else
        if totalSize = 0 then .error (.zeroDivision, written + c, count + 1)
        else processChunks totalSize rest (written + c) (count + 1)

/-- The streaming GET response: status, the `Content-Length` header
(`headers.get('Content-Length', 0)` defaults to 0 when absent), and the
body length in bytes. -/
structure Resp where
  status : Nat
  contentLength : Option Nat
  bodyLen : Nat
deriving DecidableEq, Repr

/-- Outcome of `requests.get(url, stream=True, timeout=10)`. -/
inductive GetResult where
  | exn : GetResult
  | resp : Resp → GetResult
deriving DecidableEq, Repr

/-- Environment of one `download_file(url, name, download_dir)` call:
whether `os.path.exists(file_path)` holds, and what the network returns. -/
structure DlEnv where
  fileExists : Bool
  get : GetResult
deriving DecidableEq, Repr

/-- How one `download_file` call ended.  Every constructor is a normal
return of the Python function: all exceptions inside it are caught by its
`except requests.RequestException` / `except Exception` handlers, so none
escapes to the caller. -/
inductive DlOutcome where
  | skippedExisting : DlOutcome
  | requestFailed : DlOutcome
  | httpError : Nat → DlOutcome
  | completed : DlOutcome
  | unexpected : PyExn → DlOutcome
deriving DecidableEq, Repr

/-- Observable effects and outcome of one `download_file` call:
whether `requests.get` was invoked, whether the destination file was
created (opened with mode `wb`, truncate-create), how many bytes and
chunks were written to it, and the outcome. -/
structure DlResult where
  networkCalled : Bool
  fileCreated : Bool
  bytesWritten : Nat
  chunksWritten : Nat
  outcome : DlOutcome
deriving DecidableEq, Repr

/-- `download_file`: skip when the destination exists; report a request
exception; report a non-200 status; otherwise `total_size` is the header
value or 0, the file is created and the chunk loop runs, a raised
`ZeroDivisionError` being caught by `except Exception`. -/
def download_file (env : DlEnv) : DlResult :=
  if env.fileExists then ⟨false, false, 0, 0, .skippedExisting⟩
  else
    match env.get with
    | .exn => ⟨true, false, 0, 0, .requestFailed⟩
    | .resp r =>
        if r.status ≠ 200 then ⟨true, false, 0, 0, .httpError r.status⟩
        else
          let totalSize := r.contentLength.getD 0
          match processChunks totalSize (chunkSizes r.bodyLen) 0 0 with
          | .ok (w, c) => ⟨true, true, w, c, .completed⟩
          | .error (e, w, c) => ⟨true, true, w, c, .unexpected e⟩

/-- The download loop of `main`: one `download_file` call per record of the
persisted list, sequentially. -/
def runBatch (envs : List DlEnv) : List DlResult := envs.map download_file

/-- The name `main` derives from a persisted record before downloading:
`urllib.parse.unquote(row['File Name'].strip())`. -/
def csvReadName (stored : List Char) : List Char := unquoteL (pyStrip stored)

/-- Whether a percent-escape starts at the head of the string. -/
def escHead : List Char → Bool
  | c :: a :: b :: _ => c = '%' && isHexDigit a && isHexDigit b
  | _ => false

/-- Whether a string contains a well-formed percent-escape `%xx`. -/
def containsEscape : List Char → Bool
  | [] => false
  | c :: rest => escHead (c :: rest) || containsEscape rest

/-! ## Checks of the URL embedding against concrete CPython behavior -/

example : urljoin "https://archive.org/download/set/".data "a.zip".data
    = "https://archive.org/download/set/a.zip".data := by decide
example : urljoin "https://archive.org/download/set".data [] =
    "https://archive.org/download/set".data := by decide
example : urljoin "https://archive.org/download/set/".data ['.'] =
    "https://archive.org/download/set/".data := by decide
example : urljoin "https://archive.org/download/set/".data "..".data =
    "https://archive.org/download/".data := by decide
example : urljoin "https://archive.org/download/set/".data "/abs/path.zip".data =
    "https://archive.org/abs/path.zip".data := by decide
example : urljoin "https://archive.org/download/set/".data "?x=1".data =
    "https://archive.org/download/set/?x=1".data := by decide
example : urljoin "https://archive.org/download/set/".data "#frag".data =
    "https://archive.org/download/set/#frag".data := by decide
example : urljoin "https://archive.org/download/set/".data "http://other.org/f.zip".data =
    "http://other.org/f.zip".data := by decide
example : urljoin "https://archive.org/download/set/".data "//cdn.org/f.zip".data =
    "https://cdn.org/f.zip".data := by decide
example : urljoin "https://archive.org/download/set/".data "sub/dir/f.zip".data =
    "https://archive.org/download/set/sub/dir/f.zip".data := by decide
example : urljoin "https://archive.org/download/set/".data "../up.zip".data =
    "https://archive.org/download/up.zip".data := by decide
example : unquoteL "file%2541.zip".data = "file%41.zip".data := by decide
example : unquoteL "%ZZ%4".data = "%ZZ%4".data := by decide
example : unquoteL "b%20c.zip".data = "b c.zip".data := by decide


/-! ## Claims C1 and C2: the size parser -/

/-- C1: for every input string, `parse_size` first strips whitespace and
uppercases, then multiplies the float value of the numeric prefix by
`1024 ^ 3` for suffix `G`, `1024 ^ 2` for `M`, `1024` for `K`, and returns
the literal float value when there is no suffix; fractional magnitudes are
accepted and the parser is case- and surrounding-whitespace-insensitive, as
the five concrete instances of the spec show. -/
theorem parse_size_spec :
    (∀ l q, (pyUpper (pyStrip l)).getLast? = some 'G' →
      pyFloat (pyUpper (pyStrip l)).dropLast = some q → parse_sizeL l = q * 1024 ^ 3)
  ∧ (∀ l q, (pyUpper (pyStrip l)).getLast? = some 'M' →
      pyFloat (pyUpper (pyStrip l)).dropLast = some q → parse_sizeL l = q * 1024 ^ 2)
  ∧ (∀ l q, (pyUpper (pyStrip l)).getLast? = some 'K' →
      pyFloat (pyUpper (pyStrip l)).dropLast = some q → parse_sizeL l = q * 1024)
  ∧ (∀ l q, (pyUpper (pyStrip l)).getLast? ≠ some 'G' →
      (pyUpper (pyStrip l)).getLast? ≠ some 'M' →
      (pyUpper (pyStrip l)).getLast? ≠ some 'K' →
      pyFloat (pyUpper (pyStrip l)) = some q → parse_sizeL l = q)
  ∧ parse_size "1.5G" = (3 / 2) * 1024 ^ 3
  ∧ parse_size "300M" = 300 * 1024 ^ 2
  ∧ parse_size "100K" = 100 * 1024
  ∧ parse_size "2048" = 2048
  ∧ parse_size " 2g " = 2 * 1024 ^ 3 := by
  refine ⟨?_, ?_, ?_, ?_, ?_, ?_, ?_, ?_, ?_⟩
  · intro l q hS hF
    simp [parse_sizeL, hS, hF]
  · intro l q hS hF
    simp [parse_sizeL, hS, hF]
  · intro l q hS hF
    simp [parse_sizeL, hS, hF]
  · intro l q hG hM hK hF
    simp [parse_sizeL, hG, hM, hK, hF]
  · with_unfolding_all rfl
  · with_unfolding_all rfl
  · with_unfolding_all rfl
  · with_unfolding_all rfl
  · with_unfolding_all rfl

/-- C1 witness: the suffix rules of `parse_size_spec` applied at concrete
inputs, discharging each hypothesis there. -/
theorem parse_size_spec_witness :
    parse_sizeL "7G".data = 7 * 1024 ^ 3 ∧ parse_sizeL "7M".data = 7 * 1024 ^ 2
  ∧ parse_sizeL "7K".data = 7 * 1024 ∧ parse_sizeL "7".data = 7 :=
  ⟨parse_size_spec.1 "7G".data 7 (by with_unfolding_all rfl) (by with_unfolding_all rfl),
   parse_size_spec.2.1 "7M".data 7 (by with_unfolding_all rfl) (by with_unfolding_all rfl),
   parse_size_spec.2.2.1 "7K".data 7 (by with_unfolding_all rfl) (by with_unfolding_all rfl),
   parse_size_spec.2.2.2.1 "7".data 7 (by decide) (by decide) (by decide)
     (by with_unfolding_all rfl)⟩

/-- C2: when the numeric prefix handed to `float` is unparsable,
`parse_size` returns `0`; no error escapes (the embedding is a total
function, mirroring the `except ValueError: return 0`). -/
theorem parse_size_unparsable_zero (l : List Char)
    (h : pyFloat (sizePrefix l) = none) : parse_sizeL l = 0 := by
  by_cases hG : (pyUpper (pyStrip l)).getLast? = some 'G'
  · simp [sizePrefix, hG] at h
    simp [parse_sizeL, hG, h]
  · by_cases hM : (pyUpper (pyStrip l)).getLast? = some 'M'
    · simp [sizePrefix, hG, hM] at h
      simp [parse_sizeL, hG, hM, h]
    · by_cases hK : (pyUpper (pyStrip l)).getLast? = some 'K'
      · simp [sizePrefix, hG, hM, hK] at h
        simp [parse_sizeL, hG, hM, hK, h]
      · simp [sizePrefix, hG, hM, hK] at h
        simp [parse_sizeL, hG, hM, hK, h]

/-- C2 witness: the spec example, with the unparsable prefix discharged
concretely: `parse("garbage") = 0`. -/
theorem parse_size_unparsable_zero_witness : parse_sizeL "garbage".data = 0 :=
  parse_size_unparsable_zero "garbage".data (by with_unfolding_all rfl)


/-! ## Helper lemmas -/

theorem splitFirst_eq_none (sep : Char) (l : List Char) (h : ∀ c ∈ l, c ≠ sep) :
    splitFirst sep l = none := by
  induction l with
  | nil => rfl
  | cons c rest ih =>
      rw [splitFirst, if_neg (h c (by simp)), ih (fun x hx => h x (by simp [hx]))]
      rfl

theorem pySplit_ne_nil (sep : Char) (l : List Char) : pySplit sep l ≠ [] := by
  cases l with
  | nil => simp [pySplit]
  | cons c rest =>
      rw [pySplit]
      by_cases h : c = sep
      · simp [h]
      · simp only [if_neg h]
        cases pySplit sep rest <;> simp

theorem pySplit_no_sep (sep : Char) (l : List Char) (h : ∀ c ∈ l, c ≠ sep) :
    pySplit sep l = [l] := by
  induction l with
  | nil => rfl
  | cons c rest ih =>
      rw [pySplit, if_neg (h c (by simp)), ih (fun x hx => h x (by simp [hx]))]

theorem pySplit_length (sep : Char) (l : List Char) :
    (pySplit sep l).length = l.count sep + 1 := by
  induction l with
  | nil => simp [pySplit]
  | cons c rest ih =>
      by_cases h : c = sep
      · subst h
        rw [pySplit, if_pos rfl]
        simp [List.count_cons, ih]
      · obtain ⟨s, ss, hps⟩ : ∃ s ss, pySplit sep rest = s :: ss := by
          cases hq : pySplit sep rest with
          | nil => exact absurd hq (pySplit_ne_nil sep rest)
          | cons s ss => exact ⟨s, ss, rfl⟩
        rw [pySplit, if_neg h, hps]
        rw [hps] at ih
        simp only [List.length_cons] at ih ⊢
        simp [List.count_cons, h, ih]

theorem lastSegment_append_no_sep (l₁ l₂ : List Char) (h : ∀ c ∈ l₂, c ≠ '/') :
    lastSegment (l₁ ++ l₂) = lastSegment l₁ ++ l₂ := by
  unfold lastSegment
  induction l₁ with
  | nil =>
      rw [List.nil_append, pySplit_no_sep '/' l₂ h]
      simp [pySplit]
  | cons c rest ih =>
      by_cases hc : c = '/'
      · subst hc
        rw [List.cons_append, pySplit, if_pos rfl]
        conv_rhs => rw [pySplit, if_pos rfl]
        rw [List.getLastD_cons, List.getLastD_cons]
        exact ih
      · obtain ⟨s, ss, hps⟩ : ∃ s ss, pySplit '/' (rest ++ l₂) = s :: ss := by
          cases hq : pySplit '/' (rest ++ l₂) with
          | nil => exact absurd hq (pySplit_ne_nil '/' (rest ++ l₂))
          | cons s ss => exact ⟨s, ss, rfl⟩
        obtain ⟨s2, ss2, hps2⟩ : ∃ s2 ss2, pySplit '/' rest = s2 :: ss2 := by
          cases hq : pySplit '/' rest with
          | nil => exact absurd hq (pySplit_ne_nil '/' rest)
          | cons s2 ss2 => exact ⟨s2, ss2, rfl⟩
        rw [List.cons_append, pySplit, if_neg hc, hps]
        conv_rhs => rw [pySplit, if_neg hc, hps2]
        rw [List.getLastD_cons, List.getLastD_cons]
        rw [hps, hps2, List.getLastD_cons, List.getLastD_cons] at ih
        have hlen : ss.length = ss2.length := by
          have h1 := pySplit_length '/' (rest ++ l₂)
          have h2 := pySplit_length '/' rest
          have hcz : List.count '/' l₂ = 0 :=
            List.count_eq_zero.mpr (fun hm => h '/' hm rfl)
          rw [hps, List.count_append, hcz] at h1
          rw [hps2] at h2
          simp only [List.length_cons] at h1 h2
          omega
        cases ss with
        | nil =>
            cases ss2 with
            | nil =>
                simp only [List.getLastD_nil] at ih ⊢
                simp [ih]
            | cons v vs => simp at hlen
        | cons u us =>
            cases ss2 with
            | nil => simp at hlen
            | cons v vs =>
                rw [List.getLastD_cons] at ih ⊢
                rw [List.getLastD_cons] at ih ⊢
                exact ih

theorem urlsplit_plain (l d : List Char) (h1 : l ≠ [])
    (hc : splitFirst ':' l = none) (hh : splitFirst '#' l = none)
    (hq : splitFirst '?' l = none) (hs : l.head? ≠ some '/') :
    urlsplit l d = ⟨d, [], l, [], []⟩ := by
  rcases l with _ | ⟨c, rest⟩
  · exact absurd rfl h1
  · have hcs : ¬(c = '/') := by simpa using hs
    simp [urlsplit, extractScheme, hc, splitOnce, hh, hq, List.take_succ_cons, hcs]

theorem urljoin_plain (href : List Char) (h1 : href ≠ [])
    (h2 : ∀ c ∈ href, c ≠ ':' ∧ c ≠ '/' ∧ c ≠ '?' ∧ c ≠ '#')
    (h3 : href ≠ ['.']) (h4 : href ≠ ['.', '.']) :
    urljoin "https://archive.org/download/set/".data href =
      "https://archive.org/download/set/".data ++ href := by
  have hcolon := splitFirst_eq_none ':' href (fun c hc => (h2 c hc).1)
  have hhash := splitFirst_eq_none '#' href (fun c hc => (h2 c hc).2.2.2)
  have hquest := splitFirst_eq_none '?' href (fun c hc => (h2 c hc).2.2.1)
  have hslash : ∀ c ∈ href, c ≠ '/' := fun c hc => (h2 c hc).2.1
  have hhead : href.head? ≠ some '/' := by
    rcases href with _ | ⟨c, r⟩
    · simp
    · simpa using hslash c (by simp)
  have hu : urlsplit href "https".data = ⟨"https".data, [], href, [], []⟩ :=
    urlsplit_plain href "https".data h1 hcolon hhash hquest hhead
  have hb : urlsplit "https://archive.org/download/set/".data [] =
      ⟨"https".data, "archive.org".data, "/download/set/".data, [], []⟩ := by decide
  have hbp : pySplit '/' "/download/set/".data =
      [[], "download".data, "set".data, []] := by decide
  have hps : pySplit '/' href = [href] := pySplit_no_sep '/' href hslash
  have hrel : ("https".data ∈ uses_relative) := by decide
  have hnet : ("https".data ∈ uses_netloc) := by decide
  have hfm : filterMiddle ([[], "download".data, "set".data, []] ++ [href]) =
      [[], "download".data, "set".data, href] := rfl
  have hrs : resolveSegs [] [[], "download".data, "set".data, href] =
      [[], "download".data, "set".data, href] := by
    simp +decide [resolveSegs, h3, h4]
  have hjw : joinWith '/' [[], "download".data, "set".data, href] =
      '/' :: ("download".data ++ '/' :: ("set".data ++ '/' :: href)) := rfl
  have hrel2 : (['h', 't', 't', 'p', 's'] : List Char) ∈ uses_relative := by decide
  have hnet2 : (['h', 't', 't', 'p', 's'] : List Char) ∈ uses_netloc := by decide
  have hbp2 : pySplit '/' ['/', 'd', 'o', 'w', 'n', 'l', 'o', 'a', 'd', '/', 's', 'e', 't', '/'] =
      [[], ['d', 'o', 'w', 'n', 'l', 'o', 'a', 'd'], ['s', 'e', 't'], []] := by decide
  have hbl2 : (([[], ['d', 'o', 'w', 'n', 'l', 'o', 'a', 'd'], ['s', 'e', 't'], []] :
      List (List Char)).getLast?.getD []) = [] := by decide
  have hfm2 : filterMiddle [[], ['d', 'o', 'w', 'n', 'l', 'o', 'a', 'd'], ['s', 'e', 't'],
      [], href] = [[], ['d', 'o', 'w', 'n', 'l', 'o', 'a', 'd'], ['s', 'e', 't'], href] := rfl
  have hrs2 : resolveSegs [] [[], ['d', 'o', 'w', 'n', 'l', 'o', 'a', 'd'], ['s', 'e', 't'],
      href] = [[], ['d', 'o', 'w', 'n', 'l', 'o', 'a', 'd'], ['s', 'e', 't'], href] := by
    simp +decide [resolveSegs, h3, h4]
  have hglast2 : (([[], ['d', 'o', 'w', 'n', 'l', 'o', 'a', 'd'], ['s', 'e', 't'], href] :
      List (List Char)).getLast?.getD []) = href := rfl
  have hjw2 : joinWith '/' [[], ['d', 'o', 'w', 'n', 'l', 'o', 'a', 'd'], ['s', 'e', 't'], href] =
      '/' :: (['d', 'o', 'w', 'n', 'l', 'o', 'a', 'd'] ++
        '/' :: (['s', 'e', 't'] ++ '/' :: href)) := rfl
  rw [urljoin, if_neg (by decide), if_neg h1]
  simp only [hb, hu]
  simp [hbp2, hbl2, hps, hfm2, hrs2, hglast2, hjw2, h1, h3, h4, hhead, hrel2, hnet2,
    urlunsplit]

theorem scrapeLoop_eq_filterMap (pageUrl : List Char) (rows : List HtmlRow) :
    ∀ (us ns : List (List Char)) (t : ℚ),
      scrapeLoop pageUrl rows us ns t =
        (us ++ (rows.filterMap (rowEntry pageUrl)).map (fun e => e.1),
         ns ++ (rows.filterMap (rowEntry pageUrl)).map (fun e => e.2.1),
         t + ((rows.filterMap (rowEntry pageUrl)).map (fun e => e.2.2)).sum) := by
  induction rows with
  | nil => intro us ns t; simp [scrapeLoop]
  | cons row rest ih =>
      intro us ns t
      cases h : rowEntry pageUrl row with
      | none => simp [scrapeLoop, h, ih]
      | some e =>
          obtain ⟨u, n, s⟩ := e
          simp [scrapeLoop, h, ih, add_assoc]

theorem chunkSizes_sum (n : Nat) : (chunkSizes n).sum = n := by
  by_cases h : n % 102400 = 0 <;>
    simp [chunkSizes, h, List.sum_replicate, smul_eq_mul] <;> omega

theorem chunkSizes_mem (n c : Nat) (h : c ∈ chunkSizes n) : 0 < c ∧ c ≤ 102400 := by
  rw [chunkSizes] at h
  rcases List.mem_append.mp h with h | h
  · have := List.eq_of_mem_replicate h
    omega
  · by_cases hm : n % 102400 = 0
    · simp [hm] at h
    · simp [hm] at h
      have : n % 102400 < 102400 := Nat.mod_lt _ (by omega)
      omega

theorem chunkSizes_head (n : Nat) (h : 0 < n) :
    ∃ rest, chunkSizes n = min n 102400 :: rest := by
  rcases Nat.lt_or_ge n 102400 with hlt | hge
  · have h1 : n / 102400 = 0 := Nat.div_eq_of_lt hlt
    have h2 : n % 102400 = n := Nat.mod_eq_of_lt hlt
    refine ⟨[], ?_⟩
    have h3 : min n 102400 = n := by omega
    simp [chunkSizes, h1, h2, h3]
    omega
  · obtain ⟨k, hk⟩ : ∃ k, n / 102400 = k + 1 :=
      ⟨n / 102400 - 1, by
        have : 1 ≤ n / 102400 := (Nat.one_le_div_iff (by omega)).mpr hge
        omega⟩
    have h3 : min n 102400 = 102400 := by omega
    refine ⟨List.replicate k 102400 ++ (if n % 102400 = 0 then [] else [n % 102400]), ?_⟩
    rw [h3, chunkSizes, hk, List.replicate_succ, List.cons_append]

theorem processChunks_ok (t : Nat) (ht : t ≠ 0) (l : List Nat) :
    0 ∉ l → ∀ w k, processChunks t l w k = .ok (w + l.sum, k + l.length) := by
  induction l with
  | nil => intro _ w k; simp [processChunks]
  | cons c rest ih =>
      intro h w k
      have hc : c ≠ 0 := fun hc0 => h (by simp [hc0])
      have hr : 0 ∉ rest := fun hr0 => h (by simp [hr0])
      rw [processChunks]
      simp only [hc, ht, if_false, if_neg hc, if_neg ht]
      rw [ih hr]
      simp only [List.sum_cons, List.length_cons, Except.ok.injEq, Prod.mk.injEq]
      omega

/-! ## Claim C3: row extraction order, skipping, and the size total -/

/-- C3: the listing extractor emits entries in document order of the table
rows; a row lacking a first anchor or a last cell contributes nothing (it
is skipped without error, `rowEntry` being `none`), the returned total is
the sum of the parsed sizes of the emitted rows, and an unparsable size
cell contributes 0 without blocking its row.  The two concrete instances
are the 3-row table of the spec (row 2 has no anchor) and a row whose size
cell is unparsable. -/
theorem scrape_rows_spec :
    (∀ pageUrl rows,
      scrape_rows pageUrl rows =
        ((rows.filterMap (rowEntry pageUrl)).map (fun e => e.1),
         (rows.filterMap (rowEntry pageUrl)).map (fun e => e.2.1),
         ((rows.filterMap (rowEntry pageUrl)).map (fun e => e.2.2)).sum))
  ∧ scrape_rows "https://archive.org/download/set/".data
      [⟨[⟨some "a.zip".data⟩], ["1K".data]⟩,
       ⟨[], ["1.2M".data]⟩,
       ⟨[⟨some "b.zip".data⟩], ["2K".data]⟩] =
      (["https://archive.org/download/set/a.zip".data,
        "https://archive.org/download/set/b.zip".data],
       ["a.zip".data, "b.zip".data], 1024 + 2048)
  ∧ scrape_rows "https://archive.org/download/set/".data
      [⟨[⟨some "c.zip".data⟩], ["garbage".data]⟩] =
      (["https://archive.org/download/set/c.zip".data], ["c.zip".data], 0) := by
  refine ⟨?_, ?_, ?_⟩
  · intro pageUrl rows
    simp [scrape_rows, scrapeLoop_eq_filterMap]
  · with_unfolding_all rfl
  · with_unfolding_all rfl

/-! ## Claim C5: unguarded division by zero on unknown content length -/

/-- C5: when the server declares no `Content-Length` (default 0) or
declares 0 and the body yields at least one chunk, the per-chunk progress
computation `(downloaded / total_size) * 100` divides by zero; the branch
is reachable and raises `ZeroDivisionError` right after the first chunk is
written (the `except Exception` handler then ends the call). -/
theorem download_zero_total_division (r : Resp) (h200 : r.status = 200)
    (hcl : r.contentLength.getD 0 = 0) (hbody : 0 < r.bodyLen) :
    download_file ⟨false, .resp r⟩ =
      ⟨true, true, min r.bodyLen 102400, 1, .unexpected .zeroDivision⟩ := by
  obtain ⟨rest, hr⟩ := chunkSizes_head r.bodyLen hbody
  have hc : min r.bodyLen 102400 ≠ 0 := by omega
  simp [download_file, h200, hcl, hr, processChunks, hc]

/-- C5 witness: a 200 response with no `Content-Length` header and a
5000-byte body reaches the division by zero. -/
theorem download_zero_total_division_witness :
    download_file ⟨false, .resp ⟨200, none, 5000⟩⟩ =
      ⟨true, true, min 5000 102400, 1, .unexpected .zeroDivision⟩ :=
  download_zero_total_division ⟨200, none, 5000⟩ rfl rfl (by decide)

/-! ## Claim C6: existing destination file short-circuits the download -/

/-- C6: when the destination file already exists, `download_file` is a
no-op: no network call, no file created or modified, no bytes written, and
a normal immediate return. -/
theorem download_skip_existing (env : DlEnv) (h : env.fileExists = true) :
    download_file env = ⟨false, false, 0, 0, .skippedExisting⟩ := by
  simp [download_file, h]

/-- C6 witness: a concrete environment with the file present. -/
theorem download_skip_existing_witness :
    download_file ⟨true, .resp ⟨200, some 10, 10⟩⟩ =
      ⟨false, false, 0, 0, .skippedExisting⟩ :=
  download_skip_existing ⟨true, .resp ⟨200, some 10, 10⟩⟩ rfl

/-! ## Claim C7: listing fetch failure yields an empty result -/

/-- C7: a raised network failure, or a 4xx/5xx status that
`raise_for_status` turns into an exception, makes `scrape_archive` return
`([], [], 0)` after printing the error; the embedding is a total function
(no exception crosses the call boundary) and consumes its single fetch
outcome (no retry). -/
theorem scrape_archive_fetch_failure :
    (∀ pageUrl, scrape_archive pageUrl .fail = ([], [], 0))
  ∧ (∀ pageUrl status rows, 400 ≤ status → status < 600 →
      scrape_archive pageUrl (.resp status rows) = ([], [], 0)) := by
  refine ⟨fun _ => rfl, ?_⟩
  intro pageUrl status rows h1 h2
  simp [scrape_archive, h1, h2]

/-- C7 witness: HTTP 404 on a nonempty page yields `([], [], 0)`. -/
theorem scrape_archive_fetch_failure_witness :
    scrape_archive "https://archive.org/download/set/".data
      (.resp 404 [⟨[⟨some "a.zip".data⟩], ["1K".data]⟩]) = ([], [], 0) :=
  scrape_archive_fetch_failure.2 "https://archive.org/download/set/".data 404
    [⟨[⟨some "a.zip".data⟩], ["1K".data]⟩] (by decide) (by decide)

/-! ## Claim C8: non-success status aborts one download, not the batch -/

/-- C8: a non-200 response makes `download_file` return normally with a
reported error and no file side effect, and the batch loop of `main`
processes every record: each element of the batch is the independent
result of its own `download_file` call. -/
theorem download_http_error_continues :
    (∀ (env : DlEnv) (r : Resp), env.fileExists = false → env.get = .resp r →
      r.status ≠ 200 → download_file env = ⟨true, false, 0, 0, .httpError r.status⟩)
  ∧ (∀ env rest, runBatch (env :: rest) = download_file env :: runBatch rest)
  ∧ (∀ envs, (runBatch envs).length = envs.length) := by
  refine ⟨?_, fun _ _ => rfl, fun envs => by simp [runBatch]⟩
  intro env r h1 h2 h3
  simp [download_file, h1, h2, h3]

/-- C8 witness: a 404 on a fresh destination aborts that download only. -/
theorem download_http_error_continues_witness :
    download_file ⟨false, .resp ⟨404, none, 0⟩⟩ = ⟨true, false, 0, 0, .httpError 404⟩ :=
  download_http_error_continues.1 ⟨false, .resp ⟨404, none, 0⟩⟩ ⟨404, none, 0⟩
    rfl rfl (by decide)

/-! ## Claim C9: fixed 100 KiB chunking writes the exact body -/

/-- C9: a successful download reads the body in chunks of at most
102400 bytes (all full except the last), appends each to the freshly
created file, and writes exactly the body: for a 250000-byte body the file
ends at exactly 250000 bytes after exactly 3 chunks, two full and one of
45200 bytes. -/
theorem download_chunking_spec :
    (∀ n, (chunkSizes n).sum = n)
  ∧ (∀ n c, c ∈ chunkSizes n → 0 < c ∧ c ≤ 102400)
  ∧ (∀ r : Resp, r.status = 200 → r.contentLength.getD 0 ≠ 0 →
      download_file ⟨false, .resp r⟩ =
        ⟨true, true, r.bodyLen, (chunkSizes r.bodyLen).length, .completed⟩)
  ∧ chunkSizes 250000 = [102400, 102400, 45200]
  ∧ download_file ⟨false, .resp ⟨200, some 250000, 250000⟩⟩ =
      ⟨true, true, 250000, 3, .completed⟩ := by
  refine ⟨chunkSizes_sum, chunkSizes_mem, ?_, by decide, by decide⟩
  intro r h200 hcl
  have h0 : 0 ∉ chunkSizes r.bodyLen := fun h =>
    absurd (chunkSizes_mem _ _ h).1 (by omega)
  simp [download_file, h200, processChunks_ok _ hcl _ h0, chunkSizes_sum]

/-- C9 witness: the general successful-download rule applied to a
300000-byte body, and the chunk-shape rule applied to the final chunk. -/
theorem download_chunking_spec_witness :
    download_file ⟨false, .resp ⟨200, some 300000, 300000⟩⟩ =
      ⟨true, true, 300000, (chunkSizes 300000).length, .completed⟩
  ∧ (0 < 45200 ∧ 45200 ≤ 102400) :=
  ⟨download_chunking_spec.2.2.1 ⟨200, some 300000, 300000⟩ rfl (by decide),
   download_chunking_spec.2.1 250000 45200 (by decide)⟩

/-! ## Lemmas for claim C10: percent-escapes shrink under decoding -/

theorem pyIsSpace_not_percent {c : Char} (h : pyIsSpace c = true) : c ≠ '%' := by
  simp [pyIsSpace] at h
  rcases h with h | h | h | h | h | h <;> subst h <;> decide

theorem pyIsSpace_not_hex {c : Char} (h : pyIsSpace c = true) : isHexDigit c = false := by
  simp [pyIsSpace] at h
  rcases h with h | h | h | h | h | h <;> subst h <;> decide

theorem escHead_head_space {c : Char} (hc : pyIsSpace c = true) (t : List Char) :
    escHead (c :: t) = false := by
  rcases t with _ | ⟨a, _ | ⟨b, r⟩⟩
  · rfl
  · rfl
  · have h := pyIsSpace_not_percent hc
    simp [escHead, h]

theorem escHead_append_space (l s : List Char) (hs : ∀ c ∈ s, pyIsSpace c = true) :
    escHead (l ++ s) = escHead l := by
  rcases l with _ | ⟨c, _ | ⟨a, _ | ⟨b, r⟩⟩⟩
  · rcases s with _ | ⟨c, t⟩
    · rfl
    · simpa using escHead_head_space (hs c (by simp)) t
  · rcases s with _ | ⟨a, _ | ⟨b, t⟩⟩
    · rfl
    · rfl
    · have ha := pyIsSpace_not_hex (hs a (by simp))
      simp [escHead, ha]
  · rcases s with _ | ⟨b, t⟩
    · rfl
    · have hb := pyIsSpace_not_hex (hs b (by simp))
      simp [escHead, hb]
  · rfl

theorem containsEscape_allspace (s : List Char) (hs : ∀ c ∈ s, pyIsSpace c = true) :
    containsEscape s = false := by
  induction s with
  | nil => rfl
  | cons c t ih =>
      rw [containsEscape, escHead_head_space (hs c (by simp)) t,
        ih (fun x hx => hs x (by simp [hx]))]
      rfl

theorem containsEscape_append_space (l s : List Char)
    (hs : ∀ c ∈ s, pyIsSpace c = true) :
    containsEscape (l ++ s) = containsEscape l := by
  induction l with
  | nil => simpa using containsEscape_allspace s hs
  | cons c t ih =>
      have h1 : escHead (c :: (t ++ s)) = escHead (c :: t) := by
        simpa using escHead_append_space (c :: t) s hs
      rw [List.cons_append, containsEscape, h1, ih]
      conv_rhs => rw [containsEscape]

theorem containsEscape_dropWhile_space (l : List Char) :
    containsEscape (l.dropWhile pyIsSpace) = containsEscape l := by
  induction l with
  | nil => rfl
  | cons c t ih =>
      by_cases hc : pyIsSpace c = true
      · rw [List.dropWhile_cons, if_pos hc, ih, containsEscape,
          escHead_head_space hc t]
        rfl
      · rw [List.dropWhile_cons, if_neg hc]

theorem containsEscape_pyStrip (l : List Char) :
    containsEscape (pyStrip l) = containsEscape l := by
  rw [pyStrip]
  have hdecomp : l.dropWhile pyIsSpace =
      ((l.dropWhile pyIsSpace).reverse.dropWhile pyIsSpace).reverse ++
        ((l.dropWhile pyIsSpace).reverse.takeWhile pyIsSpace).reverse := by
    conv_lhs =>
      rw [← List.reverse_reverse (l.dropWhile pyIsSpace),
        ← List.takeWhile_append_dropWhile pyIsSpace (l.dropWhile pyIsSpace).reverse]
    rw [List.reverse_append]
  have hsp : ∀ c ∈ ((l.dropWhile pyIsSpace).reverse.takeWhile pyIsSpace).reverse,
      pyIsSpace c = true := by
    intro c hc
    exact List.mem_takeWhile_imp (List.mem_reverse.mp hc)
  calc containsEscape ((l.dropWhile pyIsSpace).reverse.dropWhile pyIsSpace).reverse
      = containsEscape (((l.dropWhile pyIsSpace).reverse.dropWhile pyIsSpace).reverse ++
          ((l.dropWhile pyIsSpace).reverse.takeWhile pyIsSpace).reverse) :=
        (containsEscape_append_space _ _ hsp).symm
    _ = containsEscape (l.dropWhile pyIsSpace) := by rw [← hdecomp]
    _ = containsEscape l := containsEscape_dropWhile_space l

theorem unquoteL_length_le (l : List Char) : (unquoteL l).length ≤ l.length := by
  induction l using unquoteL.induct with
  | case1 c a b rest h ih => simp [unquoteL, h]; omega
  | case2 c a b rest h ih => simp [unquoteL, h] at ih ⊢; omega
  | case3 c rest h ih => simp [unquoteL]; omega
  | case4 => simp [unquoteL]

theorem unquoteL_length_lt (l : List Char) (h : containsEscape l = true) :
    (unquoteL l).length < l.length := by
  induction l using unquoteL.induct with
  | case1 c a b rest hesc ih =>
      have hle := unquoteL_length_le rest
      simp [unquoteL, hesc]
      omega
  | case2 c a b rest hesc ih =>
      rw [containsEscape] at h
      have hh : escHead (c :: a :: b :: rest) = false :=
        Bool.eq_false_iff.mpr (fun hx => hesc (by simpa [escHead, and_assoc] using hx))
      rw [hh] at h
      simp only [Bool.false_or] at h
      have hlt := ih h
      rw [unquoteL, if_neg hesc]
      simp only [List.length_cons] at hlt ⊢
      omega
  | case3 c rest hshape ih =>
      rw [containsEscape] at h
      have hh : escHead (c :: rest) = false := by
        rcases rest with _ | ⟨a, _ | ⟨b, r⟩⟩
        · rfl
        · rfl
        · exact absurd rfl (hshape a b r)
      rw [hh] at h
      simp only [Bool.false_or] at h
      have := ih h
      simp [unquoteL]
      omega
  | case4 => simp [containsEscape] at h

theorem pyStrip_length_le (l : List Char) : (pyStrip l).length ≤ l.length := by
  rw [pyStrip]
  calc ((l.dropWhile pyIsSpace).reverse.dropWhile pyIsSpace).reverse.length
      = ((l.dropWhile pyIsSpace).reverse.dropWhile pyIsSpace).length :=
        List.length_reverse _
    _ ≤ (l.dropWhile pyIsSpace).reverse.length :=
        (List.dropWhile_suffix pyIsSpace).sublist.length_le
    _ = (l.dropWhile pyIsSpace).length := List.length_reverse _
    _ ≤ l.length := (List.dropWhile_suffix pyIsSpace).sublist.length_le

/-! ## Claim C10: the persisted name is percent-decoded a second time -/

/-- C10: the extractor writes the already-decoded name (for the href
`file%2541.zip` the stored name is `file%41.zip`), and `main` applies
`unquote` to the stored field again; hence any stored name that still
contains a percent-escape-shaped sequence names a different file on disk
(`file%41.zip` becomes `fileA.zip`), and read-back equals write-out only
for names free of such sequences. -/
theorem csv_name_double_decode :
    (∀ stored, containsEscape stored = true → csvReadName stored ≠ stored)
  ∧ (∀ stored, csvReadName stored = stored → containsEscape stored = false)
  ∧ (rowEntry "https://archive.org/download/set/".data
      ⟨[⟨some "file%2541.zip".data⟩], ["1K".data]⟩).map (fun e => e.2.1) =
      some "file%41.zip".data
  ∧ csvReadName "file%41.zip".data = "fileA.zip".data := by
  have key : ∀ stored, containsEscape stored = true → csvReadName stored ≠ stored := by
    intro stored h heq
    have h1 : containsEscape (pyStrip stored) = true := by
      rw [containsEscape_pyStrip]; exact h
    have h2 : (unquoteL (pyStrip stored)).length < (pyStrip stored).length :=
      unquoteL_length_lt _ h1
    have h3 : (pyStrip stored).length ≤ stored.length := pyStrip_length_le stored
    have h4 : (csvReadName stored).length < stored.length := lt_of_lt_of_le h2 h3
    rw [heq] at h4
    exact lt_irrefl _ h4
  refine ⟨key, ?_, by decide, by decide⟩
  intro stored h
  by_contra hne
  exact key stored (eq_true_of_ne_false hne) h

/-- C10 witness: a stored name consisting of the escape `%41` is renamed to
`A` by the second decode, so the created file differs from the record. -/
theorem csv_name_double_decode_witness : csvReadName "%41".data ≠ "%41".data :=
  csv_name_double_decode.1 "%41".data (by decide)

/-! ## Claim C4: name versus final path segment of the resolved url -/

/-- C4 counterexample: the claimed invariant fails as stated.  For the page
URL `https://archive.org/download/set` and a row whose anchor has the empty
href, `urljoin` resolves the entry url to the page URL itself, whose
percent-decoded final path segment is `set`, while the emitted name is the
decoded final segment of the href, the empty string. -/
theorem scrape_name_invariant_cex :
    (scrape_archive "https://archive.org/download/set".data
        (.resp 200 [⟨[⟨some []⟩], [['5']]⟩])).2.1 ≠
      ((scrape_archive "https://archive.org/download/set".data
        (.resp 200 [⟨[⟨some []⟩], [['5']]⟩])).1).map
        (fun u => unquoteL (lastSegment u)) := by decide

/-- C4 amended: the emitted name is the percent-decoded final segment of
the anchor href; it equals the percent-decoded final path segment of the
entry's resolved absolute url whenever the href is a plain relative file
reference — nonempty, free of `:`, `/`, `?` and `#`, and not a dot
segment — resolved against a directory-style page URL (here the
representative `https://archive.org/download/set/`), the resolution then
being simple concatenation.  For general hrefs the invariant fails, as the
empty-href counterexample shows. -/
theorem scrape_name_invariant_amended (href : List Char) (h1 : href ≠ [])
    (h2 : ∀ c ∈ href, c ≠ ':' ∧ c ≠ '/' ∧ c ≠ '?' ∧ c ≠ '#')
    (h3 : href ≠ ['.']) (h4 : href ≠ ['.', '.']) (cell : List Char) :
    rowEntry "https://archive.org/download/set/".data ⟨[⟨some href⟩], [cell]⟩ =
      some ("https://archive.org/download/set/".data ++ href,
        unquoteL (lastSegment ("https://archive.org/download/set/".data ++ href)),
        parse_sizeL cell) := by
  have hslash : ∀ c ∈ href, c ≠ '/' := fun c hc => (h2 c hc).2.1
  have hseg : lastSegment ("https://archive.org/download/set/".data ++ href) =
      lastSegment "https://archive.org/download/set/".data ++ href :=
    lastSegment_append_no_sep _ _ hslash
  have hbase : lastSegment "https://archive.org/download/set/".data = [] := by decide
  have hhref : lastSegment href = href := by
    unfold lastSegment
    rw [pySplit_no_sep '/' href hslash]
    rfl
  have hre : rowEntry "https://archive.org/download/set/".data ⟨[⟨some href⟩], [cell]⟩ =
      some (urljoin "https://archive.org/download/set/".data href,
        unquoteL (lastSegment href), parse_sizeL cell) := rfl
  rw [hre, urljoin_plain href h1 h2 h3 h4, hseg, hbase, List.nil_append, hhref]

/-- C4 witness: the amended invariant at the href `b%41.zip`, a plain
relative file name whose decoded name is `bA.zip`. -/
theorem scrape_name_invariant_amended_witness :
    rowEntry "https://archive.org/download/set/".data ⟨[⟨some "b%41.zip".data⟩], [['5']]⟩ =
      some ("https://archive.org/download/set/".data ++ "b%41.zip".data,
        unquoteL (lastSegment ("https://archive.org/download/set/".data ++ "b%41.zip".data)),
        parse_sizeL ['5']) :=
  scrape_name_invariant_amended "b%41.zip".data (by decide) (by decide) (by decide)
    (by decide) ['5']
